import Mathlib

/-!
Verification of the template-processing engine of the segment-tracking demo
generator (source file `lib/template-processor.js`).

The engine is embedded shallowly:

* `JSValue` models the Data Context: a tree of strings, (integer) numbers,
  booleans, nested mappings and sequences.  Mappings and sequences are given
  by the mutual inductives `JSFields` / `JSElems` so that all recursions over
  values are structural (hence kernel-reducible).
* `jsIndex` models one JavaScript property access `current[key]` on such a
  value: own data properties of mappings, numeric indices and `length` of
  sequences and strings; number and boolean primitives have no own
  properties in the modelled data universe.  Inherited prototype properties
  (always function-valued, e.g. `toString` or `constructor`) lie outside the
  modelled Data Context universe and are treated as absent; no claim verdict
  below relies on a non-mapping intermediate being undefined.
* `getNestedValue` is the source's `path.split('.').reduce(...)`.
* The two regular-expression replacement passes are modelled by a character
  scanner (`replaceScanF`, driven by enough fuel to cover the input) that at
  every position either fires the leftmost match and continues after it, or
  copies one character — exactly the semantics of JavaScript
  `String.replace` with a global regex (matches are non-empty here).
* `matchSectionAt` models one match of `/\x7b\x7b#(\w+)\x7d\x7d([\s\S]*?)\x7b\x7b\/\1\x7d\x7d/`:
  the name is a maximal non-empty `\w+` run and the non-greedy body ends at
  the first occurrence of the matching end marker.  `matchSimpleAt` models
  `/\x7b\x7b([\w.]+)\x7d\x7d/`.
* `expandDollar` models the replacement-pattern expansion JavaScript applies
  when the replacement is a string (the `item` in the self-reference
  substitution): `$$`, `$&`, dollar-backquote and dollar-quote; the pattern
  has no capture groups or named groups, so everything else is literal.
* `jsToString` models JavaScript `String(v)` on modelled values: strings
  unchanged, numbers and booleans in their natural text form, sequences
  joined by commas, plain mappings as `[object Object]`.
-/

def isWordChar (c : Char) : Bool :=
  c.isAlphanum || c = '_'

def isWordDot (c : Char) : Bool :=
  isWordChar c || c = '.'

mutual

inductive JSValue : Type where
  | str : String → JSValue
  | num : Int → JSValue
  | bool : Bool → JSValue
  | obj : JSFields → JSValue
  | arr : JSElems → JSValue

inductive JSFields : Type where
  | nil : JSFields
  | cons : String → JSValue → JSFields → JSFields

inductive JSElems : Type where
  | nil : JSElems
  | cons : JSValue → JSElems → JSElems

end

/-- Own-property lookup in a mapping (first binding wins, as in a JS object
literal whose keys are distinct). -/
def lookupField : JSFields → String → Option JSValue
  | .nil, _ => none
  | .cons k v rest, key => if k = key then some v else lookupField rest key

def jsLen : JSElems → Nat
  | .nil => 0
  | .cons _ rest => 1 + jsLen rest

def jsGet : JSElems → Nat → Option JSValue
  | .nil, _ => none
  | .cons x _, 0 => some x
  | .cons _ rest, n + 1 => jsGet rest n

/-- Value of a decimal digit string (most significant digit first). -/
def decValue : List Char → Nat → Nat
  | [], acc => acc
  | c :: rest, acc => decValue rest (acc * 10 + (c.toNat - 48))

/-- A key is a canonical array index when it is the decimal representation of
a natural number with no leading zeros (JavaScript array-index semantics). -/
def canonIndex (key : String) : Option Nat :=
  match key.data with
  | [] => none
  | c :: rest =>
    if (c :: rest).all Char.isDigit then
      let n := decValue (c :: rest) 0
      if key = toString n then some n else none
    else none

/-- One JavaScript property access `current[key]` on a Data Context value:
own entries of mappings; canonical numeric indices and `length` on sequences
and strings; nothing on number / boolean primitives.  Inherited prototype
properties (function-valued in JavaScript, e.g. `toString`) are outside the
modelled value universe and are treated as absent here. -/
def jsIndex : JSValue → String → Option JSValue
  | .obj fields, key => lookupField fields key
  | .arr xs, key =>
    if key = "length" then some (.num (jsLen xs : Int))
    else
      match canonIndex key with
      | some i => jsGet xs i
      | none => none
  | .str s, key =>
    if key = "length" then some (.num (s.length : Int))
    else
      match canonIndex key with
      | some i =>
        match s.data[i]? with
        | some ch => some (.str (String.mk [ch]))
        | none => none
      | none => none
  | .num _, _ => none
  | .bool _, _ => none

/-- JavaScript `path.split('.')` on the characters of the path. -/
def splitDots : List Char → List (List Char)
  | [] => [[]]
  | c :: rest =>
    if c = '.' then [] :: splitDots rest
    else
      match splitDots rest with
      | seg :: segs => (c :: seg) :: segs
      | [] => [[c]]

/-- Source `getNestedValue(obj, path)`:
`path.split('.').reduce((current, key) => current !== undefined ? current[key] : undefined, obj)`. -/
def getNestedValue (obj : JSValue) (path : String) : Option JSValue :=
  (splitDots path.data).foldl
    (fun cur seg => cur.bind fun v => jsIndex v (String.mk seg)) (some obj)

mutual

/-- JavaScript `String(v)` on modelled Data Context values. -/
def jsToString : JSValue → String
  | .str s => s
  | .num n => toString n
  | .bool b => cond b "true" "false"
  | .obj _ => "[object Object]"
  | .arr xs => jsElemsToString xs

/-- JavaScript `Array.prototype.toString`, i.e. `join(',')` of the elements'
string forms. -/
def jsElemsToString : JSElems → String
  | .nil => ""
  | .cons x .nil => jsToString x
  | .cons x (.cons y ys) => jsToString x ++ "," ++ jsElemsToString (.cons y ys)

end

/-- JavaScript replacement-pattern expansion for a string replacement value:
`$$` is a literal dollar, `$&` the matched text, dollar-backquote the part of
the input before the match, dollar-quote the part after it; the regexes here
have no capture groups or named groups, so every other sequence is literal. -/
def expandDollar (matched pre post : List Char) : List Char → List Char
  | [] => []
  | c :: rest =>
    if c = '$' then
      match rest with
      | [] => [c]
      | d :: rest2 =>
        if d = '$' then '$' :: expandDollar matched pre post rest2
        else if d = '&' then matched ++ expandDollar matched pre post rest2
        else if d = Char.ofNat 96 then pre ++ expandDollar matched pre post rest2
        else if d = Char.ofNat 39 then post ++ expandDollar matched pre post rest2
        else c :: d :: expandDollar matched pre post rest2
    else c :: expandDollar matched pre post rest

/-- Source line `itemResult.replace(/\x7b\x7b\.\x7d\x7d/g, item)`: global replacement of
the five-character self-reference marker by the (already stringified) item,
with JavaScript replacement-pattern expansion; `pre` accumulates the part of
the original string already scanned. -/
def replaceSelfAux (rep : List Char) (pre : List Char) : List Char → List Char
  | '{' :: '{' :: '.' :: '}' :: '}' :: rest =>
    expandDollar ['{', '{', '.', '}', '}'] pre rest rep ++
      replaceSelfAux rep (pre ++ ['{', '{', '.', '}', '}']) rest
  | c :: rest => c :: replaceSelfAux rep (pre ++ [c]) rest
  | [] => []

/-- Index of the first occurrence of `pat` in a character list (the
non-greedy body of the section regex ends at the first end marker). -/
def findSubstr (pat : List Char) : List Char → Option Nat
  | [] => if pat.isEmpty then some 0 else none
  | c :: rest =>
    if pat.isPrefixOf (c :: rest) then some 0
    else (findSubstr pat rest).map (· + 1)

/-- The end marker `\x7b\x7b/name\x7d\x7d` belonging to a section name. -/
def sectionCloser (nm : List Char) : List Char :=
  '{' :: '{' :: '/' :: (nm ++ ['}', '}'])

/-- One attempted match of the simple-variable regex
`/\x7b\x7b([\w.]+)\x7d\x7d/` at the head of the input; returns the captured
path and the total matched length. -/
def matchSimpleAt : List Char → Option (String × Nat)
  | '{' :: '{' :: rest =>
    let p := rest.takeWhile isWordDot
    let rest2 := rest.dropWhile isWordDot
    if p.isEmpty then none
    else
      match rest2 with
      | '}' :: '}' :: _ => some (String.mk p, p.length + 4)
      | _ => none
  | _ => none

/-- The part of a section match after the literal `\x7b\x7b#`: a maximal
non-empty `\w+` run as the name, the literal `\x7d\x7d`, then the non-greedy
body ending at the first matching end marker. -/
def matchSectionCore (rest : List Char) : Option (String × List Char × Nat) :=
  let nm := rest.takeWhile isWordChar
  let rest2 := rest.dropWhile isWordChar
  if nm.isEmpty then none
  else
    match rest2 with
    | '}' :: '}' :: rest3 =>
      match findSubstr (sectionCloser nm) rest3 with
      | some i =>
        some (String.mk nm, rest3.take i, (nm.length + 5) + i + (nm.length + 5))
      | none => none
    | _ => none

/-- One attempted match of the section regex
`/\x7b\x7b#(\w+)\x7d\x7d([\s\S]*?)\x7b\x7b\/\1\x7d\x7d/` at the head of the
input; returns the captured name, the (non-greedy) body, and the total
matched length. -/
def matchSectionAt : List Char → Option (String × List Char × Nat)
  | '{' :: '{' :: '#' :: rest => matchSectionCore rest
  | _ => none

/-- Global regex replacement as a character scan: at every position either
the pattern matches (the match function returns the replacement and the total
match length, which is always positive for the patterns used here) and the
scan resumes after the match, or one character is copied.  The fuel starts at
the input length and dominates it throughout, so it never runs out. -/
def replaceScanF (f : List Char → Option (List Char × Nat)) :
    Nat → List Char → List Char
  | 0, s => s
  | _ + 1, [] => []
  | fuel + 1, c :: rest =>
    match f (c :: rest) with
    | some (rep, m) => rep ++ replaceScanF f fuel (rest.drop (m - 1))
    | none => c :: replaceScanF f fuel rest

def replaceScan (f : List Char → Option (List Char × Nat)) (s : List Char) :
    List Char :=
  replaceScanF f s.length s

/-- The replacement for one simple-variable match (source lines 72–75):
a defined value is inserted after string conversion, an undefined path keeps
the original marker text. -/
def simpleReplacement (data : JSValue) (p : String) (orig : List Char) :
    List Char :=
  match getNestedValue data p with
  | some v => (jsToString v).data
  | none => orig

def simpleStep (data : JSValue) (t : List Char) : Option (List Char × Nat) :=
  (matchSimpleAt t).map fun r => (simpleReplacement data r.1 (t.take r.2), r.2)

/-- Source `replaceSimpleVariables(template, data)`. -/
def replaceSimpleVariablesL (data : JSValue) (s : List Char) : List Char :=
  replaceScan (simpleStep data) s

/-- Source per-item processing inside a section (lines 41–52): replace the
self-reference marker by the stringified item, then, when the item is of
JavaScript type object (a mapping or a sequence), run the simple-variable
pass with the item as lookup root. -/
def processItem (body : List Char) (item : JSValue) : List Char :=
  let r := replaceSelfAux (jsToString item).data [] body
  match item with
  | .obj _ => replaceSimpleVariablesL item r
  | .arr _ => replaceSimpleVariablesL item r
  | _ => r

/-- Source `array.map(item => ...).join('')`. -/
def processElems (body : List Char) : JSElems → List Char
  | .nil => []
  | .cons x rest => processItem body x ++ processElems body rest

/-- The replacement for one section match (source lines 33–53): a value that
is not a sequence erases the whole section, a sequence contributes the
concatenated per-element renderings. -/
def sectionReplacement (data : JSValue) (nm : String) (body : List Char) :
    List Char :=
  match getNestedValue data nm with
  | some (.arr xs) => processElems body xs
  | _ => []

def sectionStep (data : JSValue) (t : List Char) :
    Option (List Char × Nat) :=
  (matchSectionAt t).map fun r => (sectionReplacement data r.1 r.2.1, r.2.2)

/-- Source `replaceVariables(template, data)`: the section pass followed by
the simple-variable pass. -/
def replaceVariablesL (data : JSValue) (s : List Char) : List Char :=
  replaceSimpleVariablesL data (replaceScan (sectionStep data) s)

def replaceVariables (template : String) (data : JSValue) : String :=
  String.mk (replaceVariablesL data template.data)

/-- The spec's public contract name for `replaceVariables`. -/
def render (template : String) (data : JSValue) : String :=
  replaceVariables template data

/-- Neither regex matches at this position. -/
def noMatch (s : List Char) : Bool :=
  (matchSectionAt s).isNone && (matchSimpleAt s).isNone

/-- No position of the string matches either regex: the template carries no
placeholder marker and no section marker. -/
def markerFree : List Char → Bool
  | [] => true
  | c :: rest => noMatch (c :: rest) && markerFree rest

def isPrim : JSValue → Bool
  | .str _ => true
  | .num _ => true
  | .bool _ => true
  | _ => false

def allPrim : JSElems → Bool
  | .nil => true
  | .cons x rest => isPrim x && allPrim rest

/-- Concatenation of the stringified sequence elements, in order and with no
delimiter. -/
def stringConcat : JSElems → List Char
  | .nil => []
  | .cons x rest => (jsToString x).data ++ stringConcat rest

/-! ### Basic helper lemmas -/

theorem mk_data (s : String) : String.mk s.data = s := rfl

theorem data_append (s t : String) : (s ++ t).data = s.data ++ t.data := by
  cases s
  cases t
  rfl

theorem drop_append_len (A B : List Char) (k : Nat) :
    (A ++ B).drop (A.length + k) = B.drop k := by
  induction A with
  | nil => simp
  | cons a A ih =>
    have hl : (a :: A).length + k = (A.length + k) + 1 := by simp; omega
    rw [List.cons_append, hl, List.drop_succ_cons, ih]

/-! ### Scanner lemmas -/

theorem replaceScanF_fuel (f : List Char → Option (List Char × Nat)) :
    ∀ (n₁ n₂ : Nat) (s : List Char), s.length ≤ n₁ → s.length ≤ n₂ →
      replaceScanF f n₁ s = replaceScanF f n₂ s := by
  intro n₁
  induction n₁ with
  | zero =>
    intro n₂ s hs₁ _
    have : s = [] := List.eq_nil_of_length_eq_zero (Nat.le_zero.mp hs₁)
    subst this
    cases n₂ <;> rfl
  | succ n ih =>
    intro n₂ s hs₁ hs₂
    cases s with
    | nil => cases n₂ <;> rfl
    | cons c rest =>
      cases n₂ with
      | zero => exact absurd hs₂ (by simp)
      | succ n₂ =>
        show replaceScanF f (n + 1) (c :: rest) = replaceScanF f (n₂ + 1) (c :: rest)
        simp only [replaceScanF]
        cases h : f (c :: rest) with
        | none =>
          have := ih n₂ rest (by simpa using Nat.lt_succ_iff.mp (Nat.lt_of_lt_of_le (Nat.lt_succ_self _) (by simpa using hs₁)))
            (by simp at hs₂; omega)
          simp [this]
        | some r =>
          obtain ⟨rep, m⟩ := r
          have hlen : (rest.drop (m - 1)).length ≤ rest.length := by
            simp [List.length_drop]
          have h1 : (rest.drop (m - 1)).length ≤ n := by simp at hs₁; omega
          have h2 : (rest.drop (m - 1)).length ≤ n₂ := by simp at hs₂; omega
          simp [ih n₂ _ h1 h2]

theorem replaceScan_nil (f : List Char → Option (List Char × Nat)) :
    replaceScan f [] = [] := rfl

theorem replaceScan_step_none (f : List Char → Option (List Char × Nat))
    (c : Char) (rest : List Char) (h : f (c :: rest) = none) :
    replaceScan f (c :: rest) = c :: replaceScan f rest := by
  show replaceScanF f (rest.length + 1) (c :: rest) = _
  simp only [replaceScanF, h]
  rfl

theorem replaceScan_step_some (f : List Char → Option (List Char × Nat))
    (s rep : List Char) (m : Nat) (hm : 1 ≤ m) (hs : s ≠ [])
    (h : f s = some (rep, m)) :
    replaceScan f s = rep ++ replaceScan f (s.drop m) := by
  cases s with
  | nil => exact absurd rfl hs
  | cons c rest =>
    show replaceScanF f (rest.length + 1) (c :: rest) = _
    simp only [replaceScanF, h]
    have hdrop : (c :: rest).drop m = rest.drop (m - 1) := by
      cases m with
      | zero => omega
      | succ k => simp
    rw [hdrop]
    congr 1
    exact replaceScanF_fuel f rest.length _ _ (by simp [List.length_drop]) le_rfl

theorem replaceScan_id (f : List Char → Option (List Char × Nat))
    (hf : ∀ t : List Char, noMatch t = true → f t = none) :
    ∀ s : List Char, markerFree s = true → replaceScan f s = s := by
  intro s
  induction s with
  | nil => intro _; rfl
  | cons c rest ih =>
    intro h
    have h' := h
    simp only [markerFree, Bool.and_eq_true] at h'
    rw [replaceScan_step_none f c rest (hf _ h'.1), ih h'.2]

theorem sectionStep_none (D : JSValue) (t : List Char) (h : noMatch t = true) :
    sectionStep D t = none := by
  simp only [noMatch, Bool.and_eq_true, Option.isNone_iff_eq_none] at h
  simp [sectionStep, h.1]

theorem simpleStep_none (D : JSValue) (t : List Char) (h : noMatch t = true) :
    simpleStep D t = none := by
  simp only [noMatch, Bool.and_eq_true, Option.isNone_iff_eq_none] at h
  simp [simpleStep, h.2]

theorem replaceVariablesL_markerFree (D : JSValue) (s : List Char)
    (h : markerFree s = true) : replaceVariablesL D s = s := by
  unfold replaceVariablesL replaceSimpleVariablesL
  rw [replaceScan_id _ (sectionStep_none D) s h,
    replaceScan_id _ (simpleStep_none D) s h]

/-! ### Replacement-pattern expansion -/

theorem expandDollar_no_dollar (matched pre post rep : List Char)
    (h : '$' ∉ rep) : expandDollar matched pre post rep = rep := by
  induction rep with
  | nil => rfl
  | cons c rest ih =>
    simp only [List.mem_cons, not_or] at h
    have hc : ¬ c = '$' := fun hh => h.1 hh.symm
    rw [expandDollar.eq_def]
    simp [hc, ih h.2]

/-! ### Dotted-path splitting -/

theorem splitDots_no_dot : ∀ xs : List Char, '.' ∉ xs → splitDots xs = [xs] := by
  intro xs
  induction xs with
  | nil => intro _; rfl
  | cons c rest ih =>
    intro h
    simp only [List.mem_cons, not_or] at h
    have hc : ¬ c = '.' := fun hh => h.1 hh.symm
    rw [splitDots, if_neg hc, ih h.2]

theorem splitDots_append : ∀ xs ys : List Char, '.' ∉ xs →
    splitDots (xs ++ '.' :: ys) = xs :: splitDots ys := by
  intro xs ys
  induction xs with
  | nil => intro _; rfl
  | cons c rest ih =>
    intro h
    simp only [List.mem_cons, not_or] at h
    have hc : ¬ c = '.' := fun hh => h.1 hh.symm
    rw [List.cons_append, splitDots, if_neg hc, ih h.2]

theorem getNestedValue_single (D : JSValue) (a : String) (h : '.' ∉ a.data) :
    getNestedValue D a = jsIndex D a := by
  unfold getNestedValue
  rw [splitDots_no_dot _ h]
  simp [mk_data]

/-! ### Section matching on a decomposed template -/

theorem takeWhile_append_stop (p : Char → Bool) :
    ∀ (xs : List Char) (y : Char) (t : List Char),
      (∀ x ∈ xs, p x = true) → p y = false →
      (xs ++ y :: t).takeWhile p = xs ∧ (xs ++ y :: t).dropWhile p = y :: t := by
  intro xs y t
  induction xs with
  | nil =>
    intro _ hy
    simp [List.takeWhile, List.dropWhile, hy]
  | cons x rest ih =>
    intro hx hy
    have hpx : p x = true := hx x (by simp)
    have := ih (fun a ha => hx a (by simp [ha])) hy
    simp [List.takeWhile, List.dropWhile, hpx, this.1, this.2]

theorem matchSectionAt_pos (nm tail : List Char) (i : Nat)
    (h1 : nm ≠ []) (h2 : ∀ c ∈ nm, isWordChar c = true)
    (h3 : findSubstr (sectionCloser nm) tail = some i) :
    matchSectionAt ('{' :: '{' :: '#' :: (nm ++ '}' :: '}' :: tail)) =
      some (String.mk nm, tail.take i, (nm.length + 5) + i + (nm.length + 5)) := by
  show matchSectionCore (nm ++ '}' :: '}' :: tail) = _
  have hw : isWordChar '}' = false := by decide
  obtain ⟨ht, hd⟩ := takeWhile_append_stop isWordChar nm '}' ('}' :: tail) h2 hw
  unfold matchSectionCore
  rw [ht, hd]
  cases nm with
  | nil => exact absurd rfl h1
  | cons c rest => simp [h3]

theorem sectionReplacement_empty (D : JSValue) (nm : String) (body : List Char)
    (h : ∀ xs, getNestedValue D nm ≠ some (.arr xs)) :
    sectionReplacement D nm body = [] := by
  unfold sectionReplacement
  split
  case _ xs heq => exact absurd heq (h xs)
  case _ => rfl

theorem sectionScan_skip (D : JSValue) (nm tail : List Char) (i : Nat)
    (h1 : nm ≠ []) (h2 : ∀ c ∈ nm, isWordChar c = true)
    (h3 : findSubstr (sectionCloser nm) tail = some i)
    (h4 : ∀ xs, getNestedValue D (String.mk nm) ≠ some (.arr xs)) :
    replaceScan (sectionStep D) ('{' :: '{' :: '#' :: (nm ++ '}' :: '}' :: tail)) =
      replaceScan (sectionStep D) (tail.drop (i + (nm.length + 5))) := by
  have hm := matchSectionAt_pos nm tail i h1 h2 h3
  have hstep : sectionStep D ('{' :: '{' :: '#' :: (nm ++ '}' :: '}' :: tail)) =
      some (sectionReplacement D (String.mk nm) (tail.take i),
        (nm.length + 5) + i + (nm.length + 5)) := by
    simp [sectionStep, hm]
  rw [replaceScan_step_some _ _ _ _ (by omega) (by simp) hstep,
    sectionReplacement_empty D (String.mk nm) (tail.take i) h4]
  have hsplit : '{' :: '{' :: '#' :: (nm ++ '}' :: '}' :: tail) =
      ('{' :: '{' :: '#' :: (nm ++ ['}', '}'])) ++ tail := by
    simp
  rw [hsplit]
  have hlen : (nm.length + 5) + i + (nm.length + 5) =
      ('{' :: '{' :: '#' :: (nm ++ ['}', '}'])).length + (i + (nm.length + 5)) := by
    simp
    omega
  rw [hlen, drop_append_len]
  simp

/-! ### Per-item self-reference substitution -/

theorem replaceSelfAux_pat (rep : List Char) (h : '$' ∉ rep) :
    replaceSelfAux rep [] ['{', '{', '.', '}', '}'] = rep := by
  have h1 : replaceSelfAux rep [] ['{', '{', '.', '}', '}'] =
      expandDollar ['{', '{', '.', '}', '}'] [] [] rep ++ [] := rfl
  rw [h1, expandDollar_no_dollar _ _ _ _ h, List.append_nil]

theorem processElems_selfref : ∀ items : JSElems, allPrim items = true →
    '$' ∉ stringConcat items →
    processElems ['{', '{', '.', '}', '}'] items = stringConcat items
  | .nil, _, _ => rfl
  | .cons x rest, hp0, hd => by
    have hp : isPrim x = true ∧ allPrim rest = true := by
      simpa [allPrim, Bool.and_eq_true] using hp0
    have hdx : '$' ∉ (jsToString x).data := fun hmem => hd (by
      show '$' ∈ (jsToString x).data ++ stringConcat rest
      exact List.mem_append_left _ hmem)
    have hdr : '$' ∉ stringConcat rest := fun hmem => hd (by
      show '$' ∈ (jsToString x).data ++ stringConcat rest
      exact List.mem_append_right _ hmem)
    have hx : processItem ['{', '{', '.', '}', '}'] x = (jsToString x).data := by
      cases x with
      | str s => exact replaceSelfAux_pat _ hdx
      | num n => exact replaceSelfAux_pat _ hdx
      | bool b => exact replaceSelfAux_pat _ hdx
      | obj fields => exact Bool.noConfusion hp.1
      | arr xs => exact Bool.noConfusion hp.1
    show processItem ['{', '{', '.', '}', '}'] x ++
      processElems ['{', '{', '.', '}', '}'] rest = _
    rw [hx, processElems_selfref rest hp.2 hdr]
    rfl

/-! ### Claims -/

/-- Claim C8: for every template string containing no placeholder markers and
no section markers (no position matches either regex), and for every Data
Context, `render` returns the template unchanged — the identity law. -/
theorem c8_no_marker_identity (T : String) (D : JSValue)
    (h : markerFree T.data = true) : render T D = T := by
  show String.mk (replaceVariablesL D T.data) = T
  rw [replaceVariablesL_markerFree D T.data h, mk_data]

theorem c8_no_marker_identity_witness :
    render "Hello world!" (JSValue.obj (.cons "k" (.str "v") .nil)) = "Hello world!" :=
  c8_no_marker_identity "Hello world!" _ (by decide)

/-- Claim C9: `render` is a pure function of its two arguments — any two
invocations on the same (template, data) pair produce the identical output
string. -/
theorem c9_deterministic (T T' : String) (D D' : JSValue)
    (hT : T = T') (hD : D = D') : render T D = render T' D' := by
  rw [hT, hD]

theorem c9_deterministic_witness :
    render "\x7b\x7bk\x7d\x7d" (.obj (.cons "k" (.str "v") .nil)) =
      render "\x7b\x7bk\x7d\x7d" (.obj (.cons "k" (.str "v") .nil)) :=
  c9_deterministic _ _ _ _ rfl rfl

/-- Claim C2: rendering is total — `render` is exactly the composition of the
two total passes, so it terminates and never raises for any template and
Data Context — and unresolved references degrade gracefully: a section whose
name is unresolved contributes the empty string, and a placeholder whose
path is unresolved keeps its original marker text. -/
theorem c2_total_graceful (T : String) (D : JSValue) (nm p : String)
    (body orig : List Char)
    (h1 : getNestedValue D nm = none) (h2 : getNestedValue D p = none) :
    render T D =
      String.mk (replaceSimpleVariablesL D (replaceScan (sectionStep D) T.data)) ∧
      sectionReplacement D nm body = [] ∧
      simpleReplacement D p orig = orig := by
  refine ⟨rfl, ?_, ?_⟩
  · simp [sectionReplacement, h1]
  · simp [simpleReplacement, h2]

theorem c2_total_graceful_witness :
    sectionReplacement (JSValue.obj .nil) "missing" ['x'] = [] ∧
      simpleReplacement (JSValue.obj .nil) "missing" ['x'] = ['x'] :=
  ⟨(c2_total_graceful "t" (JSValue.obj .nil) "missing" "missing" ['x'] ['x'] rfl rfl).2.1,
   (c2_total_graceful "t" (JSValue.obj .nil) "missing" "missing" ['x'] ['x'] rfl rfl).2.2⟩

/-- Claim C3 as stated is false: an intermediate segment that resolves to a
sequence (not a mapping) does not make the path undefined — the source's
`current[key]` supports numeric indices and `length` on sequences.  With
data `a ↦ [10, 20]`, segment `a` resolves to a non-mapping, yet `a.0`
resolves to `10` and `a.length` to `2`. -/
theorem c3_counterexample :
    getNestedValue
        (JSValue.obj (.cons "a" (.arr (.cons (.num 10) (.cons (.num 20) .nil))) .nil)) "a" =
      some (.arr (.cons (.num 10) (.cons (.num 20) .nil))) ∧
    getNestedValue
        (JSValue.obj (.cons "a" (.arr (.cons (.num 10) (.cons (.num 20) .nil))) .nil)) "a.0" =
      some (.num 10) ∧
    getNestedValue
        (JSValue.obj (.cons "a" (.arr (.cons (.num 10) (.cons (.num 20) .nil))) .nil)) "a.length" =
      some (.num 2) :=
  ⟨rfl, rfl, rfl⟩

/-- Claim C3, amended: resolving a dotted path `a.b.c` equals the three
single-segment lookups performed in sequence, and the resolution is undefined
whenever any intermediate lookup is undefined.  The original's further clause
— undefined whenever an intermediate segment resolves to a non-mapping — is
false: sequence and string intermediates resolve canonical numeric indices
and `length`, and in JavaScript number and boolean intermediates resolve
inherited prototype properties, so no such clause is asserted here. -/
theorem c3_sequential_lookup (D : JSValue) (a b c : String)
    (ha : '.' ∉ a.data) (hb : '.' ∉ b.data) (hc : '.' ∉ c.data) :
    getNestedValue D (a ++ "." ++ b ++ "." ++ c) =
      ((getNestedValue D a).bind fun v => getNestedValue v b).bind
        (fun v => getNestedValue v c) ∧
      (getNestedValue D a = none →
        getNestedValue D (a ++ "." ++ b ++ "." ++ c) = none) ∧
      (∀ v : JSValue, getNestedValue D a = some v → getNestedValue v b = none →
        getNestedValue D (a ++ "." ++ b ++ "." ++ c) = none) := by
  have hdata : (a ++ "." ++ b ++ "." ++ c).data =
      a.data ++ '.' :: (b.data ++ '.' :: c.data) := by
    simp [data_append]
  have hmain : getNestedValue D (a ++ "." ++ b ++ "." ++ c) =
      ((getNestedValue D a).bind fun v => getNestedValue v b).bind
        (fun v => getNestedValue v c) := by
    unfold getNestedValue
    rw [hdata, splitDots_append _ _ ha, splitDots_append _ _ hb,
      splitDots_no_dot _ hc]
    simp [splitDots_no_dot _ ha, splitDots_no_dot _ hb, mk_data]
  refine ⟨hmain, ?_, ?_⟩
  · intro hnone
    rw [hmain, hnone]
    rfl
  · intro v h1 h2
    rw [hmain, h1]
    simp [h2]

theorem c3_sequential_lookup_witness :
    getNestedValue (JSValue.obj (.cons "u" (.obj (.cons "v" (.obj (.cons "w" (.str "z") .nil)) .nil)) .nil))
        ("u" ++ "." ++ "v" ++ "." ++ "w") =
      ((getNestedValue (JSValue.obj (.cons "u" (.obj (.cons "v" (.obj (.cons "w" (.str "z") .nil)) .nil)) .nil)) "u").bind
          fun v => getNestedValue v "v").bind
        (fun v => getNestedValue v "w") :=
  (c3_sequential_lookup _ "u" "v" "w" (by decide) (by decide) (by decide)).1

/-- Claim C7: a placeholder whose dotted path is undefined keeps its original
marker text verbatim; in particular `Hello \x7b\x7bmissing\x7d\x7d!` with
empty data and `\x7b\x7buser.city\x7d\x7d` with `user ↦ \x7bname: "Jo"\x7d`
render unchanged. -/
theorem c7_unresolved_passthrough (D : JSValue) (p : String) (orig : List Char)
    (h : getNestedValue D p = none) :
    simpleReplacement D p orig = orig ∧
      render "Hello \x7b\x7bmissing\x7d\x7d!" (.obj .nil) =
        "Hello \x7b\x7bmissing\x7d\x7d!" ∧
      render "\x7b\x7buser.city\x7d\x7d"
          (.obj (.cons "user" (.obj (.cons "name" (.str "Jo") .nil)) .nil)) =
        "\x7b\x7buser.city\x7d\x7d" := by
  refine ⟨?_, rfl, rfl⟩
  simp [simpleReplacement, h]

theorem c7_unresolved_passthrough_witness :
    simpleReplacement (JSValue.obj .nil) "missing" ['m'] = ['m'] :=
  (c7_unresolved_passthrough (JSValue.obj .nil) "missing" ['m'] rfl).1

/-- Claim C10: a placeholder whose path resolves to a defined value is
substituted by that value's JavaScript string conversion — numbers and
booleans in their natural text form, sequences joined by commas with no
brackets, plain mappings as `[object Object]` — and in particular a defined
falsy value (empty string, 0, false) is substituted rather than left as the
literal marker. -/
theorem c10_string_conversion (D : JSValue) (p : String) (orig : List Char)
    (v : JSValue) (h : getNestedValue D p = some v) :
    simpleReplacement D p orig = (jsToString v).data ∧
      (∀ n : Int, jsToString (.num n) = toString n) ∧
      (∀ b : Bool, jsToString (.bool b) = cond b "true" "false") ∧
      (∀ fields : JSFields, jsToString (.obj fields) = "[object Object]") ∧
      jsToString (.arr .nil) = "" ∧
      (∀ x : JSValue, jsToString (.arr (.cons x .nil)) = jsToString x) ∧
      (∀ (x y : JSValue) (ys : JSElems),
        jsToString (.arr (.cons x (.cons y ys))) =
          jsToString x ++ "," ++ jsToString (.arr (.cons y ys))) ∧
      render "x\x7b\x7bk\x7d\x7dy" (.obj (.cons "k" (.str "") .nil)) = "xy" ∧
      render "\x7b\x7bk\x7d\x7d" (.obj (.cons "k" (.num 0) .nil)) = "0" ∧
      render "\x7b\x7bk\x7d\x7d" (.obj (.cons "k" (.bool false) .nil)) = "false" ∧
      render "\x7b\x7bk\x7d\x7d"
          (.obj (.cons "k" (.arr (.cons (.num 1) (.cons (.str "b") .nil))) .nil)) = "1,b" ∧
      render "\x7b\x7bk\x7d\x7d" (.obj (.cons "k" (.obj .nil) .nil)) = "[object Object]" := by
  refine ⟨?_, fun n => rfl, fun b => rfl, fun fields => rfl, rfl, fun x => rfl,
    fun x y ys => rfl, rfl, rfl, rfl, rfl, rfl⟩
  simp [simpleReplacement, h]

theorem c10_string_conversion_witness :
    simpleReplacement (JSValue.obj (.cons "k" (.num 7) .nil)) "k" ['q'] =
      (jsToString (.num 7)).data :=
  (c10_string_conversion (JSValue.obj (.cons "k" (.num 7) .nil)) "k" ['q'] (.num 7) rfl).1

/-- Claim C4 as stated is false for multi-segment dotted names: the section
regex captures `(\w+)` only, so a marker pair with a dotted name is not
recognized as a section at all and passes through verbatim instead of being
replaced by the empty string, even though its dotted name resolves to a
non-sequence. -/
theorem c4_counterexample :
    render "\x7b\x7b#a.b\x7d\x7dX\x7b\x7b/a.b\x7d\x7d"
        (.obj (.cons "a" (.obj (.cons "b" (.str "s") .nil)) .nil)) =
      "\x7b\x7b#a.b\x7d\x7dX\x7b\x7b/a.b\x7d\x7d" ∧
      ("\x7b\x7b#a.b\x7d\x7dX\x7b\x7b/a.b\x7d\x7d" : String) ≠ "" :=
  ⟨rfl, by decide⟩

/-- Claim C4, amended: a section name is a single `\w+` identifier; it is
resolved against the top-level Data Context by the same lookup function as
placeholders (`getNestedValue`), and when it resolves to anything other than
a sequence the entire section — markers and body — is replaced by the empty
string (the scan resumes right after the end marker).  A marker pair with a
dotted name is not recognized as a section at all. -/
theorem c4_section_name_resolution (D : JSValue) (nm tail : List Char) (i : Nat)
    (h1 : nm ≠ []) (h2 : ∀ c ∈ nm, isWordChar c = true)
    (h3 : findSubstr (sectionCloser nm) tail = some i)
    (h4 : ∀ xs, getNestedValue D (String.mk nm) ≠ some (.arr xs)) :
    (∀ body : List Char, sectionReplacement D (String.mk nm) body = []) ∧
      replaceScan (sectionStep D) ('{' :: '{' :: '#' :: (nm ++ '}' :: '}' :: tail)) =
        replaceScan (sectionStep D) (tail.drop (i + (nm.length + 5))) ∧
      matchSectionAt ("\x7b\x7b#a.b\x7d\x7dX\x7b\x7b/a.b\x7d\x7d" : String).data = none :=
  ⟨fun body => sectionReplacement_empty D _ body h4,
   sectionScan_skip D nm tail i h1 h2 h3 h4, rfl⟩

theorem c4_section_name_resolution_witness :
    replaceScan (sectionStep (JSValue.obj .nil))
        ('{' :: '{' :: '#' :: (['m'] ++ '}' :: '}' :: ("B\x7b\x7b/m\x7d\x7d" : String).data)) =
      replaceScan (sectionStep (JSValue.obj .nil))
        (("B\x7b\x7b/m\x7d\x7d" : String).data.drop (1 + (List.length ['m'] + 5))) :=
  (c4_section_name_resolution (JSValue.obj .nil) ['m'] ("B\x7b\x7b/m\x7d\x7d" : String).data 1
    (by decide) (by decide) (by decide)
    (fun xs h => Option.noConfusion h)).2.1

/-- Claim C6: a well-formed section (single-identifier name, body delimited
by the first matching end marker) whose name resolves to a non-sequence
value — absent key, string, number, or mapping — renders as the empty
string, independent of the content of the section body. -/
theorem c6_nonsequence_section_empty (D : JSValue) (nm body : List Char)
    (h1 : nm ≠ []) (h2 : ∀ c ∈ nm, isWordChar c = true)
    (h3 : findSubstr (sectionCloser nm) (body ++ sectionCloser nm) = some body.length)
    (h4 : ∀ xs, getNestedValue D (String.mk nm) ≠ some (.arr xs)) :
    render (String.mk ('{' :: '{' :: '#' :: (nm ++ '}' :: '}' :: (body ++ sectionCloser nm)))) D = "" := by
  have h5 := sectionScan_skip D nm (body ++ sectionCloser nm) body.length h1 h2 h3 h4
  have hclen : (sectionCloser nm).length = nm.length + 5 := by
    simp [sectionCloser]
  have h6 : (body ++ sectionCloser nm).drop (body.length + (nm.length + 5)) = [] := by
    rw [drop_append_len, ← hclen, List.drop_length]
  show String.mk (replaceSimpleVariablesL D (replaceScan (sectionStep D)
    ('{' :: '{' :: '#' :: (nm ++ '}' :: '}' :: (body ++ sectionCloser nm))))) = ""
  rw [h5, h6]
  rfl

theorem c6_nonsequence_section_empty_witness :
    render (String.mk ('{' :: '{' :: '#' :: (['a'] ++ '}' :: '}' :: (['X'] ++ sectionCloser ['a']))))
      (JSValue.obj (.cons "a" (.str "s") .nil)) = "" :=
  c6_nonsequence_section_empty (JSValue.obj (.cons "a" (.str "s") .nil)) ['a'] ['X']
    (by decide) (by decide) (by decide)
    (fun xs h => by
      exact absurd (show some (JSValue.str "s") = some (JSValue.arr xs) from h) (by simp))

/-- Claim C1 as stated is false in its leak clause: when the current element
lacks the placeholder's key, the marker survives the section pass and the
final simple-substitution pass then resolves it against the outer Data
Context.  With `items ↦ [\x7b\x7d]` and outer `name ↦ "OUTER"`, the section
body `\x7b\x7bname\x7d\x7d` renders as `OUTER`, not as the untouched marker. -/
theorem c1_counterexample :
    render "\x7b\x7b#items\x7d\x7d\x7b\x7bname\x7d\x7d\x7b\x7b/items\x7d\x7d"
        (.obj (.cons "items" (.arr (.cons (.obj .nil) .nil))
          (.cons "name" (.str "OUTER") .nil))) = "OUTER" ∧
      ("OUTER" : String) ≠ "\x7b\x7bname\x7d\x7d" :=
  ⟨rfl, by decide⟩

/-- Claim C1, amended: inside a section over a sequence of mappings, a bare
placeholder whose name is a key of the current element is substituted with
that element's own value — the lookup root is the element, the outer context
plays no part — but a placeholder whose name the element lacks is left in
place by the section pass and is then resolved against the outer Data
Context by the final simple-substitution pass, so scoping leaks for keys the
element does not define. -/
theorem c1_section_scoping (elemV outerV : String)
    (hmf : markerFree elemV.data = true) :
    (∀ (fields : JSFields) (p : String) (orig : List Char) (v : JSValue),
        getNestedValue (.obj fields) p = some v →
          simpleReplacement (.obj fields) p orig = (jsToString v).data) ∧
      render "\x7b\x7b#items\x7d\x7d\x7b\x7bname\x7d\x7d\x7b\x7b/items\x7d\x7d"
        (.obj (.cons "items" (.arr (.cons (.obj (.cons "name" (.str elemV) .nil)) .nil))
          (.cons "name" (.str outerV) .nil))) = elemV ∧
      render "\x7b\x7b#items\x7d\x7d\x7b\x7bname\x7d\x7d\x7b\x7b/items\x7d\x7d"
        (.obj (.cons "items" (.arr (.cons (.obj .nil) .nil))
          (.cons "name" (.str outerV) .nil))) = outerV := by
  refine ⟨?_, ?_, ?_⟩
  · intro fields p orig v h
    simp [simpleReplacement, h]
  · show String.mk (replaceSimpleVariablesL
        (JSValue.obj (.cons "items" (.arr (.cons (.obj (.cons "name" (.str elemV) .nil)) .nil))
          (.cons "name" (.str outerV) .nil)))
        (((elemV.data ++ []) ++ []) ++ [])) = elemV
    rw [show ((elemV.data ++ []) ++ []) ++ [] = elemV.data by simp]
    rw [show replaceSimpleVariablesL
        (JSValue.obj (.cons "items" (.arr (.cons (.obj (.cons "name" (.str elemV) .nil)) .nil))
          (.cons "name" (.str outerV) .nil))) elemV.data = elemV.data from
      replaceScan_id _ (simpleStep_none _) _ hmf, mk_data]
  · have hstep : simpleStep
        (JSValue.obj (.cons "items" (.arr (.cons (.obj .nil) .nil))
          (.cons "name" (.str outerV) .nil)))
        ['{', '{', 'n', 'a', 'm', 'e', '}', '}'] = some (outerV.data, 8) := rfl
    show String.mk (replaceSimpleVariablesL
        (JSValue.obj (.cons "items" (.arr (.cons (.obj .nil) .nil))
          (.cons "name" (.str outerV) .nil)))
        (((['{', '{', 'n', 'a', 'm', 'e', '}', '}'] ++ []) ++ []) ++ [])) = outerV
    rw [show ((['{', '{', 'n', 'a', 'm', 'e', '}', '}'] ++ []) ++ []) ++ [] =
      ['{', '{', 'n', 'a', 'm', 'e', '}', '}'] by simp]
    rw [show replaceSimpleVariablesL
        (JSValue.obj (.cons "items" (.arr (.cons (.obj .nil) .nil))
          (.cons "name" (.str outerV) .nil)))
        ['{', '{', 'n', 'a', 'm', 'e', '}', '}'] =
      outerV.data ++ replaceScan (simpleStep
        (JSValue.obj (.cons "items" (.arr (.cons (.obj .nil) .nil))
          (.cons "name" (.str outerV) .nil))))
        (['{', '{', 'n', 'a', 'm', 'e', '}', '}'].drop 8) from
      replaceScan_step_some _ _ _ 8 (by omega) (by simp) hstep]
    rw [show (['{', '{', 'n', 'a', 'm', 'e', '}', '}'] : List Char).drop 8 = [] from rfl,
      replaceScan_nil, List.append_nil, mk_data]

theorem c1_section_scoping_witness :
    render "\x7b\x7b#items\x7d\x7d\x7b\x7bname\x7d\x7d\x7b\x7b/items\x7d\x7d"
        (.obj (.cons "items" (.arr (.cons (.obj (.cons "name" (.str "inner") .nil)) .nil))
          (.cons "name" (.str "OUTER") .nil))) = "inner" :=
  (c1_section_scoping "inner" "OUTER" (by decide)).2.1

/-- Claim C5 as stated is false for element strings containing JavaScript
replacement patterns: the self-reference substitution passes the item as a
string replacement, so `$&` in an element re-inserts the matched marker
`\x7b\x7b.\x7d\x7d` (which the simple pass then cannot resolve) instead of
the element's text. -/
theorem c5_counterexample :
    render "\x7b\x7b#xs\x7d\x7d\x7b\x7b.\x7d\x7d\x7b\x7b/xs\x7d\x7d"
        (.obj (.cons "xs" (.arr (.cons (.str "$&") .nil)) .nil)) = "\x7b\x7b.\x7d\x7d" ∧
      ("\x7b\x7b.\x7d\x7d" : String) ≠ "$&" :=
  ⟨rfl, by decide⟩

/-- Claim C5, amended: a section over a sequence of primitive values whose
body is the self-reference marker renders the concatenation of the
stringified element values in original order with no delimiter, provided the
stringified elements contain no dollar character (no replacement-pattern
expansion) and the subsequent simple-substitution pass leaves the
concatenation unchanged — it contains no marker that pass would rewrite;
markers that pass keeps verbatim, such as unresolvable placeholders, are
allowed. -/
theorem c5_primitive_concat (items : JSElems)
    (hp : allPrim items = true) (hd : '$' ∉ stringConcat items)
    (hm : replaceSimpleVariablesL (JSValue.obj (.cons "xs" (.arr items) .nil))
      (stringConcat items) = stringConcat items) :
    render "\x7b\x7b#xs\x7d\x7d\x7b\x7b.\x7d\x7d\x7b\x7b/xs\x7d\x7d"
        (.obj (.cons "xs" (.arr items) .nil)) = String.mk (stringConcat items) := by
  show String.mk (replaceSimpleVariablesL (JSValue.obj (.cons "xs" (.arr items) .nil))
      (processElems ['{', '{', '.', '}', '}'] items ++ [])) = _
  rw [List.append_nil, processElems_selfref items hp hd, hm]

theorem c5_primitive_concat_witness :
    render "\x7b\x7b#xs\x7d\x7d\x7b\x7b.\x7d\x7d\x7b\x7b/xs\x7d\x7d"
        (.obj (.cons "xs" (.arr (.cons (.str "a") (.cons (.num 5)
          (.cons (.str "\x7b\x7bzzz\x7d\x7d") .nil)))) .nil)) =
      String.mk (stringConcat (.cons (.str "a") (.cons (.num 5)
        (.cons (.str "\x7b\x7bzzz\x7d\x7d") .nil)))) :=
  c5_primitive_concat (.cons (.str "a") (.cons (.num 5)
      (.cons (.str "\x7b\x7bzzz\x7d\x7d") .nil)))
    (by decide) (by decide) rfl
